import Mathlib

/-!
Verification development for the `@imqueue/pg-pubsub` LISTEN/NOTIFY client.

The TypeScript sources are shallowly embedded below:

* the JSON codec (`src/serializers.ts`: `pack` / `unpack`) over an embedded
  JSON value type, with the runtime pair `JSON.stringify` / `JSON.parse`
  modelled as a verified serializer/parser pair on token sequences
  (wire strings are modelled as their token streams; JSON numbers are
  modelled as integers);
* the inter-process lock (`src/PgIpLock.ts`): channel-name mangling,
  `acquire`, `release`, and the process-wide instance roster mutation done
  by `destroy` (JavaScript `Array.prototype.splice` / `findIndex`
  semantics are embedded exactly, negative index handling included);
* the facade (`src/constants.ts`, class `PgPubSub`): `listen`, the
  notification demultiplexer `onNotification`, and the reconnect loop.

Database queries are external effects; their outcomes enter the model as
explicit parameters (`QueryOutcome`).  Events emitted by the facade are
collected into lists.
-/

/-! ## JSON values (`AnyJson` of `src/types/AnyJson.ts`) -/

mutual

/-- JSON value, mirroring the `AnyJson` type of the source.  Arrays and
objects are represented by the mutual types `JxList` / `JxObj`; numbers are
modelled as integers. -/
inductive Jx where
  | null : Jx
  | bool (b : Bool) : Jx
  | num (n : Int) : Jx
  | str (s : String) : Jx
  | arr (items : JxList) : Jx
  | obj (fields : JxObj) : Jx

/-- List of JSON values (a JSON array's contents). -/
inductive JxList where
  | nil  : JxList
  | cons (hd : Jx) (tl : JxList) : JxList

/-- Association list of string keys to JSON values (a JSON object's
contents). -/
inductive JxObj where
  | nil  : JxObj
  | cons (key : String) (val : Jx) (tl : JxObj) : JxObj

end

/-- Token of the JSON wire format.  A wire string is modelled as the
sequence of tokens its text lexes to. -/
inductive JTok where
  | lbrace | rbrace | lbrack | rbrack | colon | comma
  | tnull
  | tbool (b : Bool)
  | tnum (n : Int)
  | tstr (s : String)
deriving DecidableEq

mutual

/-- Model of `JSON.stringify` on the embedded JSON values: emits the token
stream of the serialized text. -/
def jsonStringify : Jx → List JTok
  | .null => [.tnull]
  | .bool b => [.tbool b]
  | .num n => [.tnum n]
  | .str s => [.tstr s]
  | .arr items => .lbrack :: (jsonStringifyList items ++ [.rbrack])
  | .obj fields => .lbrace :: (jsonStringifyObj fields ++ [.rbrace])

/-- Serialized body of a JSON array (elements separated by commas). -/
def jsonStringifyList : JxList → List JTok
  | .nil => []
  | .cons x tl => jsonStringify x ++ jsonStringifyListTail tl

/-- Serialized continuation of a JSON array body: a leading comma before
every further element. -/
def jsonStringifyListTail : JxList → List JTok
  | .nil => []
  | .cons x tl => .comma :: (jsonStringify x ++ jsonStringifyListTail tl)

/-- Serialized body of a JSON object (`"key": value` pairs separated by
commas). -/
def jsonStringifyObj : JxObj → List JTok
  | .nil => []
  | .cons k v tl => .tstr k :: .colon :: (jsonStringify v ++ jsonStringifyObjTail tl)

/-- Serialized continuation of a JSON object body. -/
def jsonStringifyObjTail : JxObj → List JTok
  | .nil => []
  | .cons k v tl => .comma :: .tstr k :: .colon :: (jsonStringify v ++ jsonStringifyObjTail tl)

end

mutual

/-- Model of `JSON.parse`, value level.  Fuel-indexed recursive descent on
the token stream; returns the parsed value and the unconsumed suffix. -/
def parseVal : Nat → List JTok → Option (Jx × List JTok)
  | 0, _ => none
  | f + 1, toks =>
    match toks with
    | .tnull :: r => some (.null, r)
    | .tbool b :: r => some (.bool b, r)
    | .tnum n :: r => some (.num n, r)
    | .tstr s :: r => some (.str s, r)
    | .lbrack :: r => (parseArrBody f r).map (fun p => (.arr p.1, p.2))
    | .lbrace :: r => (parseObjBody f r).map (fun p => (.obj p.1, p.2))
    | _ => none

/-- Parses a JSON array body after the opening bracket: either an
immediate closing bracket, or a first element followed by the tail. -/
def parseArrBody : Nat → List JTok → Option (JxList × List JTok)
  | 0, _ => none
  | f + 1, toks =>
    if toks.head? = some .rbrack then some (.nil, toks.tail)
    else do
      let (x, r1) ← parseVal f toks
      let (tl, r2) ← parseArrTail f r1
      some (.cons x tl, r2)

/-- Parses the continuation of a JSON array body after an element: a
closing bracket ends it, a comma precedes the next element. -/
def parseArrTail : Nat → List JTok → Option (JxList × List JTok)
  | 0, _ => none
  | f + 1, toks =>
    match toks with
    | .rbrack :: r => some (.nil, r)
    | .comma :: r => do
      let (x, r1) ← parseVal f r
      let (tl, r2) ← parseArrTail f r1
      some (.cons x tl, r2)
    | _ => none

/-- Parses a JSON object body after the opening brace. -/
def parseObjBody : Nat → List JTok → Option (JxObj × List JTok)
  | 0, _ => none
  | f + 1, toks =>
    if toks.head? = some .rbrace then some (.nil, toks.tail)
    else
      match toks with
      | .tstr k :: .colon :: r => do
        let (v, r1) ← parseVal f r
        let (tl, r2) ← parseObjTail f r1
        some (.cons k v tl, r2)
      | _ => none

/-- Parses the continuation of a JSON object body after a field. -/
def parseObjTail : Nat → List JTok → Option (JxObj × List JTok)
  | 0, _ => none
  | f + 1, toks =>
    match toks with
    | .rbrace :: r => some (.nil, r)
    | .comma :: .tstr k :: .colon :: r => do
      let (v, r1) ← parseVal f r
      let (tl, r2) ← parseObjTail f r1
      some (.cons k v tl, r2)
    | _ => none

end

/-- Model of the total `JSON.parse` call: parse with ample fuel and demand
that the whole token stream is consumed; any failure is an exception in
the runtime, surfaced here as `none`. -/
def jsonParse (toks : List JTok) : Option Jx :=
  match parseVal (2 * toks.length + 1) toks with
  | some (v, []) => some v
  | _ => none

/-- Model of `pack` (`src/serializers.ts`).  The TypeScript signature takes
`AnyJson`, but callers may pass `undefined`, modelled by `none`: in that
case the literal string `null` (token `tnull`) is returned.  Otherwise the
value is passed to `JSON.stringify` (which never throws on representable
JSON values; the source's catch branch also returns `null` and warns). -/
def pack : Option Jx → List JTok
  | none => [.tnull]
  | some v => jsonStringify v

/-- Model of `unpack` (`src/serializers.ts`).  Non-string input (modelled
by `none`) yields `null`; a string is passed to `JSON.parse`, and a parse
failure is caught, warned about, and replaced by the empty object. -/
def unpack : Option (List JTok) → Jx
  | none => .null
  | some toks =>
    match jsonParse toks with
    | some v => v
    | none => .obj .nil

/-! ## Inter-process lock (`src/PgIpLock.ts`) -/

/-- Internal channel tag `__PgIpLock__:` (from `` `__${PgIpLock.name}__:` ``),
as a character list; channel names are modelled as character lists. -/
def lockTag : List Char := "__PgIpLock__:".data

/-- Model of `RX_LOCK_CHANNEL.test`, where
`RX_LOCK_CHANNEL = /^(__PgIpLock__:)+/`: the regex matches exactly when the
channel starts with the tag. -/
def rxLockChannelTest (channel : List Char) : Bool :=
  decide (channel.take lockTag.length = lockTag)

/-- Model of `channel.replace(RX_LOCK_CHANNEL, '')`: a non-global regex
anchored at the start whose greedy `+` consumes every leading occurrence of
the tag, so the replacement strips them all. -/
def stripLockTag (channel : List Char) : List Char :=
  if h : channel.take lockTag.length = lockTag then
    have hlen : lockTag.length ≤ channel.length := by
      have hc := congrArg List.length h
      simp only [List.length_take] at hc
      omega
    stripLockTag (channel.drop lockTag.length)
  else
    channel
termination_by channel.length
decreasing_by
  simp only [List.length_drop]
  have : 0 < lockTag.length := by decide
  omega

/-- Model of the channel mangling in the `PgIpLock` constructor:
`` this.channel = `__${PgIpLock.name}__:${channel.replace(RX_LOCK_CHANNEL, '')}` ``. -/
def mangleChannel (channel : List Char) : List Char :=
  lockTag ++ stripLockTag channel

/-- Error thrown by a failed query, carrying the fields `acquire` inspects
(`err.code`, the SQLSTATE, and `err.detail`). -/
structure SqlError where
  code : String
  detail : String
deriving DecidableEq

/-- Outcome of awaiting a database query: resolved, or rejected with an
error. -/
inductive QueryOutcome where
  | ok
  | err (e : SqlError)
deriving DecidableEq

/-- Local state of a `PgIpLock` instance: the mangled channel, the optional
unique key, and the `acquired` flag. -/
structure PgIpLockSt where
  channel : List Char
  uniqueKey : Option String
  acquired : Bool
deriving DecidableEq

/-- Queries `release` may issue: `DELETE ... WHERE id=...` on the unique
path, `DELETE ... WHERE channel=...` otherwise. -/
inductive ReleaseQuery where
  | deleteById
  | deleteByChannel
deriving DecidableEq

namespace PgIpLock

/-- Model of `PgIpLock.acquire`.  The try-branch runs the INSERT/ON
CONFLICT query (unique or channel variant, same control flow) and sets
`acquired := true`; the catch-branch sets `acquired := false` and logs the
error unless it is the sentinel (`code = 'P0001' && detail = 'LOCKED'`).
The method returns the flag and never throws; returned alongside are the
errors passed to `logger.error`. -/
def acquire (st : PgIpLockSt) (out : QueryOutcome) :
    Bool × PgIpLockSt × List SqlError :=
  match out with
  | .ok => (true, { st with acquired := true }, [])
  | .err e =>
    let logged := if e.code = "P0001" ∧ e.detail = "LOCKED" then [] else [e]
    (false, { st with acquired := false }, logged)

/-- Model of `PgIpLock.release`.  With a unique key the DELETE-by-id query
always runs; without one a non-acquired lock returns immediately issuing no
query, and otherwise the DELETE-by-channel query runs.  The trailing
`this.acquired = false` executes only when the awaited query resolved: on a
rejection the exception propagates (third component `some e`) and the state
is left as it was. -/
def release (st : PgIpLockSt) (out : QueryOutcome) :
    List ReleaseQuery × PgIpLockSt × Option SqlError :=
  match st.uniqueKey with
  | some _ =>
    match out with
    | .ok => ([.deleteById], { st with acquired := false }, none)
    | .err e => ([.deleteById], st, some e)
  | none =>
    if st.acquired = false then ([], st, none)
    else
      match out with
      | .ok => ([.deleteByChannel], { st with acquired := false }, none)
      | .err e => ([.deleteByChannel], st, some e)

end PgIpLock

/-- JavaScript `Array.prototype.findIndex` on a roster of instance
identifiers: index of the first match, `-1` when absent. -/
def jsFindIndex (roster : List Nat) (x : Nat) : Int :=
  match roster with
  | [] => -1
  | y :: rest =>
    if y = x then 0
    else
      let r := jsFindIndex rest x
      if r < 0 then -1 else r + 1

/-- JavaScript `Array.prototype.splice(start, 1)`: a negative `start` is
clamped to `max(length + start, 0)`, a too-large one to `length`; one
element at the resulting position is removed. -/
def jsSpliceOne (roster : List Nat) (start : Int) : List Nat :=
  let len : Int := roster.length
  let s : Nat := if start < 0 then (max (len + start) 0).toNat
                 else min start.toNat roster.length
  roster.take s ++ roster.drop (s + 1)

/-- Roster mutation performed by `PgIpLock.destroy`:
`instances.splice(instances.findIndex(lock => lock === this), 1)`. -/
def destroySplice (roster : List Nat) (self : Nat) : List Nat :=
  jsSpliceOne roster (jsFindIndex roster self)

/-! ## Facade (`src/constants.ts`, class `PgPubSub`) -/

/-- Behavioural options of `PgPubSubOptions` consulted by the embedded
operations.  `executionLock` is declared and defaulted in the source
(`src/types/PgPubSubOptions.ts`) and therefore part of the model. -/
structure PubSubOptions where
  singleListener : Bool
  filtered : Bool
  executionLock : Bool
deriving DecidableEq

/-- Runtime lock object held in the facade's `locks` registry: either the
`NoLock` of multi-listener mode or a `PgIpLock`. -/
inductive AnyLock where
  | noLock
  | ip (st : PgIpLockSt)
deriving DecidableEq

namespace AnyLock

/-- Model of `isAcquired()`: `NoLock.isAcquired` is constantly `true`,
`PgIpLock.isAcquired` returns the flag. -/
def isAcquired : AnyLock → Bool
  | .noLock => true
  | .ip st => st.acquired

/-- Model of `acquire()`: `NoLock.acquire` resolves `true` without touching
the database; `PgIpLock.acquire` behaves as embedded above (logged errors
are dropped here, the facade ignores them). -/
def acquire : AnyLock → QueryOutcome → Bool × AnyLock
  | .noLock, _ => (true, .noLock)
  | .ip st, out =>
    let r := PgIpLock.acquire st out
    (r.1, .ip r.2.1)

end AnyLock

/-- The facade's `locks` registry, mapping user channel names to lock
objects. -/
abbrev Registry := List (List Char × AnyLock)

/-- Registry lookup (`this.locks[channel]`). -/
def regFind : Registry → List Char → Option AnyLock
  | [], _ => none
  | (k, l) :: rest, ch => if k = ch then some l else regFind rest ch

/-- Registry update of an existing key (`this.locks[channel] = lock`). -/
def regSet : Registry → List Char → AnyLock → Registry
  | [], _, _ => []
  | (k, l) :: rest, ch, nl =>
    if k = ch then (k, nl) :: rest else (k, l) :: regSet rest ch nl

/-- Model of `PgPubSub.createLock`: in single-listener mode a fresh
`PgIpLock` on the channel (mangled name, no unique key, not acquired);
otherwise a `NoLock`. -/
def createLock (singleListener : Bool) (channel : List Char) : AnyLock :=
  if singleListener then .ip ⟨mangleChannel channel, none, false⟩ else .noLock

/-- Model of `PgPubSub.lock`: return the registered lock for the channel,
creating and registering one first when absent. -/
def lockFor (opts : PubSubOptions) (reg : Registry) (channel : List Char) :
    AnyLock × Registry :=
  match regFind reg channel with
  | some l => (l, reg)
  | none =>
    let l := createLock opts.singleListener channel
    (l, (channel, l) :: reg)

/-- Result of a `listen(channel)` call: the updated registry, the `LISTEN`
commands issued (channel names), and the `listen` events emitted. -/
structure ListenResult where
  registry : Registry
  commands : List (List Char)
  events : List (List Char)
deriving DecidableEq

namespace PgPubSub

/-- Model of `PgPubSub.listen`: obtain or create the channel's lock, call
`acquire()`, and only on success issue `LISTEN <ident(channel)>` and emit
`listen(channel)`. -/
def listen (opts : PubSubOptions) (reg : Registry) (channel : List Char)
    (out : QueryOutcome) : ListenResult :=
  let (lock, reg1) := lockFor opts reg channel
  let (ok, lock') := lock.acquire out
  let reg2 := regSet reg1 channel lock'
  if ok then ⟨reg2, [channel], [channel]⟩ else ⟨reg2, [], []⟩

end PgPubSub

/-- Incoming `pg` notification: origin backend pid, channel, payload (a
string or absent). -/
structure PgNotification where
  processId : Int
  channel : List Char
  payload : Option (List JTok)

/-- User-visible effect of the notification demultiplexer: the aggregate
`message` event or the per-channel emitter event. -/
inductive DemuxEvent where
  | message (channel : List Char) (payload : Jx)
  | channelEvent (channel : List Char) (payload : Jx)

namespace PgPubSub

/-- Model of `PgPubSub.onNotification`.  `this.lock(...)` may register a
fresh lock for the notification's channel; then the handler skips lock
channels and (with `filtered` on) self-emitted messages, drops messages in
single-listener mode when the lock is not acquired, and otherwise unpacks
the payload and emits `message` followed by the per-channel event.
`this.processId` is `none` until `setProcessId` succeeds; the strict
equality with the notification's pid can hold only once it is set. -/
def onNotification (opts : PubSubOptions) (processId : Option Int)
    (reg : Registry) (n : PgNotification) : Registry × List DemuxEvent :=
  let (lock, reg1) := lockFor opts reg n.channel
  let skip := rxLockChannelTest n.channel ||
    (opts.filtered && decide (processId = some n.processId))
  if skip then (reg1, [])
  else if opts.singleListener && !lock.isAcquired then (reg1, [])
  else
    let payload := unpack n.payload
    (reg1, [.message n.channel payload, .channelEvent n.channel payload])

end PgPubSub

/-! ## Connection supervisor (`PgPubSub.reconnect` / `PgPubSub.close`) -/

/-- Events the supervisor emits on the facade. -/
inductive SupEvent where
  | error (msg : String)
  | close
deriving DecidableEq

/-- Model of one firing of the timer scheduled by `PgPubSub.reconnect`:
the retry counter is pre-incremented; when it reaches `retryLimit` the
error event is emitted and `close()` runs (which emits `close`), otherwise
another connect attempt starts.  Returns the new counter, the events
emitted by this firing, and whether reconnection continues. -/
def reconnectTick (retryLimit retry : Nat) : Nat × List SupEvent × Bool :=
  let r := retry + 1
  if retryLimit ≤ r then
    (r, [.error ("Connect failed after " ++ toString r ++ " retries..."), .close], false)
  else
    (r, [], true)

/-- Trace of supervisor events over a run in which every reconnect attempt
fails: each failed attempt fires the reconnect timer again until the tick
reports that no further reconnect is scheduled.  `fuel` bounds the number
of timer firings considered. -/
def runFailingReconnects (retryLimit : Nat) : Nat → Nat → List SupEvent
  | 0, _ => []
  | fuel + 1, retry =>
    let t := reconnectTick retryLimit retry
    if t.2.2 then t.2.1 ++ runFailingReconnects retryLimit fuel t.1 else t.2.1

/-! ## Helper lemmas: channel-name mangling -/

/-- Counts the leading occurrences of the internal tag on a channel name. -/
def countLockTag (channel : List Char) : Nat :=
  if h : channel.take lockTag.length = lockTag then
    have hlen : lockTag.length ≤ channel.length := by
      have hc := congrArg List.length h
      simp only [List.length_take] at hc
      omega
    1 + countLockTag (channel.drop lockTag.length)
  else 0
termination_by channel.length
decreasing_by
  simp only [List.length_drop]
  have : 0 < lockTag.length := by decide
  omega

/-- Concatenation of `k` copies of the internal tag. -/
def lockTagPow : Nat → List Char
  | 0 => []
  | k + 1 => lockTag ++ lockTagPow k

theorem stripLockTag_of_not {l : List Char}
    (h : ¬ l.take lockTag.length = lockTag) : stripLockTag l = l := by
  rw [stripLockTag, dif_neg h]

theorem stripLockTag_tag (l : List Char) :
    stripLockTag (lockTag ++ l) = stripLockTag l := by
  rw [stripLockTag, dif_pos (List.take_left lockTag l), List.drop_left]

theorem stripLockTag_not_start (l : List Char) :
    ¬ (stripLockTag l).take lockTag.length = lockTag := by
  induction l using stripLockTag.induct with
  | case1 l h _ ih =>
    rw [stripLockTag, dif_pos h]
    exact ih
  | case2 l h =>
    rw [stripLockTag_of_not h]
    exact h

theorem stripLockTag_idem (l : List Char) :
    stripLockTag (stripLockTag l) = stripLockTag l :=
  stripLockTag_of_not (stripLockTag_not_start l)

theorem countLockTag_tag (l : List Char) :
    countLockTag (lockTag ++ l) = 1 + countLockTag l := by
  rw [countLockTag, dif_pos (List.take_left lockTag l), List.drop_left]

theorem countLockTag_of_not {l : List Char}
    (h : ¬ l.take lockTag.length = lockTag) : countLockTag l = 0 := by
  rw [countLockTag, dif_neg h]

theorem stripLockTag_pow (k : Nat) (l : List Char) :
    stripLockTag (lockTagPow k ++ l) = stripLockTag l := by
  induction k with
  | zero => rw [lockTagPow, List.nil_append]
  | succ k ih => rw [lockTagPow, List.append_assoc, stripLockTag_tag, ih]

theorem mangleChannel_idem (x : List Char) :
    mangleChannel (mangleChannel x) = mangleChannel x := by
  unfold mangleChannel
  rw [stripLockTag_tag, stripLockTag_idem]

theorem countLockTag_mangleChannel (x : List Char) :
    countLockTag (mangleChannel x) = 1 := by
  unfold mangleChannel
  rw [countLockTag_tag, countLockTag_of_not (stripLockTag_not_start x)]

/-! ## Helper lemmas: registry and supervisor -/

theorem regFind_regSet_self (reg : Registry) (ch : List Char) (nl : AnyLock) :
    (regFind reg ch).isSome → regFind (regSet reg ch nl) ch = some nl := by
  induction reg with
  | nil => intro h; simp [regFind] at h
  | cons p rest ih =>
    intro h
    by_cases hk : p.1 = ch
    · simp [regFind, regSet, hk]
    · simp only [regFind, regSet, hk, if_false, if_neg hk] at h ⊢
      exact ih h

theorem lockFor_mem (opts : PubSubOptions) (reg : Registry) (ch : List Char) :
    regFind (lockFor opts reg ch).2 ch = some (lockFor opts reg ch).1 := by
  unfold lockFor
  cases h : regFind reg ch with
  | some l => simp [h]
  | none => simp [h, regFind]

theorem runFailingReconnects_spec (retryLimit : Nat) :
    ∀ (fuel retry : Nat), retry < retryLimit → retryLimit ≤ fuel + retry →
    runFailingReconnects retryLimit fuel retry =
      [SupEvent.error ("Connect failed after " ++ toString retryLimit ++ " retries..."),
       SupEvent.close] := by
  intro fuel
  induction fuel with
  | zero => intro retry h1 h2; omega
  | succ f ih =>
    intro retry h1 h2
    by_cases hc : retryLimit ≤ retry + 1
    · have hr : retry + 1 = retryLimit := by omega
      simp [runFailingReconnects, reconnectTick, hc, hr]
    · have h1' : retry + 1 < retryLimit := by omega
      have h2' : retryLimit ≤ f + (retry + 1) := by omega
      simp only [runFailingReconnects, reconnectTick, hc, if_false, if_neg hc]
      simpa using ih (retry + 1) h1' h2'

/-! ## Claim theorems -/

/-- C1: for every incoming notification whose channel name matches the
internal lock tag pattern, `onNotification` emits no `message` event and no
per-channel emitter event, regardless of the `filtered`, `singleListener`
and `executionLock` options and of any lock state. -/
theorem onNotification_ignores_lock_channels
    (opts : PubSubOptions) (processId : Option Int) (reg : Registry)
    (n : PgNotification) (h : rxLockChannelTest n.channel = true) :
    (PgPubSub.onNotification opts processId reg n).2 = [] := by
  unfold PgPubSub.onNotification
  simp [h]

/-- C1 witness: the internal channel `__PgIpLock__:T` is skipped at a
concrete instantiation exercising the theorem's hypothesis. -/
theorem onNotification_ignores_lock_channels_witness :
    rxLockChannelTest ("__PgIpLock__:T".data) = true
    ∧ (PgPubSub.onNotification ⟨true, true, true⟩ none []
        ⟨5, "__PgIpLock__:T".data, none⟩).2 = [] :=
  ⟨by decide, onNotification_ignores_lock_channels ⟨true, true, true⟩ none []
    ⟨5, "__PgIpLock__:T".data, none⟩ (by decide)⟩

/-- Helper: in multi-listener mode, when the channel has no registered lock
yet (or a `NoLock` is registered), the lock `listen` works with is the
`NoLock`. -/
theorem lockFor_noLock (opts : PubSubOptions) (reg : Registry)
    (ch : List Char) (hsl : opts.singleListener = false)
    (h : regFind reg ch = none ∨ regFind reg ch = some .noLock) :
    (lockFor opts reg ch).1 = .noLock := by
  unfold lockFor
  cases h with
  | inl h => simp [h, createLock, hsl]
  | inr h => simp [h]

/-- C2: `listen(channel)` leaves a lock for the channel registered, and
issues the `LISTEN` command and emits the `listen` event exactly when
`acquire()` returned `true`; in multi-listener mode the lock is a `NoLock`
whose `acquire()` always returns `true`, so the `LISTEN` always runs. -/
theorem listen_emits_iff_acquired
    (opts : PubSubOptions) (reg : Registry) (ch : List Char)
    (out : QueryOutcome) :
    (regFind (PgPubSub.listen opts reg ch out).registry ch).isSome = true
    ∧ ((PgPubSub.listen opts reg ch out).commands = [ch]
        ↔ ((lockFor opts reg ch).1.acquire out).1 = true)
    ∧ ((PgPubSub.listen opts reg ch out).events = [ch]
        ↔ ((lockFor opts reg ch).1.acquire out).1 = true)
    ∧ (opts.singleListener = false →
        (regFind reg ch = none ∨ regFind reg ch = some .noLock) →
        (PgPubSub.listen opts reg ch out).commands = [ch]
        ∧ (PgPubSub.listen opts reg ch out).events = [ch]) := by
  have hmem := lockFor_mem opts reg ch
  have hreg : ∀ nl, regFind
      (regSet (lockFor opts reg ch).2 ch nl) ch = some nl := by
    intro nl
    exact regFind_regSet_self _ _ _ (by simp [hmem])
  refine ⟨?_, ?_, ?_, ?_⟩
  · unfold PgPubSub.listen
    cases hok : ((lockFor opts reg ch).1.acquire out).1 <;>
      simp [hok, hreg]
  · unfold PgPubSub.listen
    cases hok : ((lockFor opts reg ch).1.acquire out).1 <;> simp [hok]
  · unfold PgPubSub.listen
    cases hok : ((lockFor opts reg ch).1.acquire out).1 <;> simp [hok]
  · intro hsl h
    have hnl := lockFor_noLock opts reg ch hsl h
    unfold PgPubSub.listen
    simp [hnl, AnyLock.acquire]

/-- C2 witness: a concrete multi-listener `listen` call on a fresh registry
issues the `LISTEN` and emits the event. -/
theorem listen_emits_iff_acquired_witness :
    (PgPubSub.listen ⟨false, false, false⟩ [] "T".data .ok).commands = ["T".data]
    ∧ (PgPubSub.listen ⟨false, false, false⟩ [] "T".data .ok).events = ["T".data] :=
  (listen_emits_iff_acquired ⟨false, false, false⟩ [] "T".data .ok).2.2.2
    rfl (Or.inl rfl)

/-- C3 (divergence witness): `onNotification` never consults the
`executionLock` option.  With `executionLock = true`, `singleListener`
on and the channel's registered lock not acquired, the notification on a
non-internal channel from another backend is dropped: no `message` and no
per-channel event is emitted, although the option's own documentation says
all instances become listeners. -/
theorem onNotification_drops_despite_executionLock :
    PgPubSub.onNotification ⟨true, false, true⟩ (some 1)
      [("C".data, AnyLock.ip ⟨"__PgIpLock__:C".data, none, false⟩)]
      ⟨2, "C".data, some [.tbool true]⟩
    = ([("C".data, AnyLock.ip ⟨"__PgIpLock__:C".data, none, false⟩)], []) := by
  rfl

/-- C4: `acquire()` returns `true` and sets the flag when the query
succeeds; on the sentinel error (`P0001` / `LOCKED`) it swallows the error
without logging, clears the flag and returns `false`; on any other error it
logs the error, clears the flag and returns `false`.  The function is
total: it never throws. -/
theorem acquire_cases (st : PgIpLockSt) (e : SqlError) :
    PgIpLock.acquire st .ok = (true, { st with acquired := true }, [])
    ∧ (e.code = "P0001" → e.detail = "LOCKED" →
        PgIpLock.acquire st (.err e) = (false, { st with acquired := false }, []))
    ∧ (¬ (e.code = "P0001" ∧ e.detail = "LOCKED") →
        PgIpLock.acquire st (.err e) = (false, { st with acquired := false }, [e])) := by
  refine ⟨rfl, ?_, ?_⟩
  · intro h1 h2
    simp [PgIpLock.acquire, h1, h2]
  · intro h
    simp [PgIpLock.acquire, h]

/-- C4 witness: the sentinel error at a concrete lock state is swallowed,
the flag cleared, `false` reported. -/
theorem acquire_cases_witness :
    PgIpLock.acquire ⟨"__PgIpLock__:C".data, none, false⟩
      (.err ⟨"P0001", "LOCKED"⟩)
    = (false, ⟨"__PgIpLock__:C".data, none, false⟩, []) :=
  (acquire_cases ⟨"__PgIpLock__:C".data, none, false⟩ ⟨"P0001", "LOCKED"⟩).2.1
    rfl rfl

/-- C5 counterexample: a failing DELETE during `release()` of an acquired
channel lock does not clear the `acquired` flag and does propagate the
error (the trailing assignment is skipped when the awaited query rejects),
contradicting the claim at this concrete input. -/
theorem release_failure_keeps_flag_cex :
    ¬ ((PgIpLock.release ⟨"__PgIpLock__:C".data, none, true⟩
          (.err ⟨"XX000", "boom"⟩)).2.1.acquired = false
       ∧ (PgIpLock.release ⟨"__PgIpLock__:C".data, none, true⟩
          (.err ⟨"XX000", "boom"⟩)).2.2 = none) := by
  decide

/-- C5 (amended): `release()` on a non-acquired channel lock (no unique
key) is a no-op issuing no query; when the DELETE succeeds the flag is
cleared; when the DELETE throws, the error propagates to the caller
(`destroy()` catches and logs it there) and the flag is left unchanged. -/
theorem release_amended (st : PgIpLockSt) (e : SqlError) :
    (st.uniqueKey = none → st.acquired = false →
      ∀ out, PgIpLock.release st out = ([], st, none))
    ∧ (st.uniqueKey = none → st.acquired = true →
      PgIpLock.release st .ok
        = ([.deleteByChannel], { st with acquired := false }, none)
      ∧ PgIpLock.release st (.err e) = ([.deleteByChannel], st, some e))
    ∧ (∀ k, st.uniqueKey = some k →
      PgIpLock.release st .ok
        = ([.deleteById], { st with acquired := false }, none)
      ∧ PgIpLock.release st (.err e) = ([.deleteById], st, some e)) := by
  refine ⟨?_, ?_, ?_⟩
  · intro h1 h2 out
    cases out <;> simp [PgIpLock.release, h1, h2]
  · intro h1 h2
    constructor <;> simp [PgIpLock.release, h1, h2]
  · intro k hk
    constructor <;> simp [PgIpLock.release, hk]

/-- C5 witness: concrete failing release of an acquired lock leaves the
flag set and surfaces the error. -/
theorem release_amended_witness :
    PgIpLock.release ⟨"__PgIpLock__:D".data, none, true⟩
      (.err ⟨"XX000", "boom"⟩)
    = ([.deleteByChannel], ⟨"__PgIpLock__:D".data, none, true⟩,
       some ⟨"XX000", "boom"⟩) :=
  ((release_amended ⟨"__PgIpLock__:D".data, none, true⟩
    ⟨"XX000", "boom"⟩).2.1 rfl rfl).2

/-- C6: with a finite `retryLimit` of at least one and every reconnect
attempt failing, the supervisor's event trace is exactly one `error` event
carrying the message `Connect failed after N retries...` (with `N` the
retry count at exhaustion, equal to `retryLimit`), followed by the `close`
event; the trace is the same for every fuel bound at least `retryLimit`,
so no further reconnect firing is scheduled afterwards. -/
theorem retry_exhaustion_trace (retryLimit fuel : Nat)
    (h1 : 1 ≤ retryLimit) (h2 : retryLimit ≤ fuel) :
    runFailingReconnects retryLimit fuel 0 =
      [SupEvent.error ("Connect failed after " ++ toString retryLimit
        ++ " retries..."), SupEvent.close] :=
  runFailingReconnects_spec retryLimit fuel 0 (by omega) (by omega)

/-- C6 witness: `retryLimit = 3` yields exactly one error with the message
matching `failed after 3 retries`, then `close`. -/
theorem retry_exhaustion_trace_witness :
    runFailingReconnects 3 3 0 =
      [SupEvent.error "Connect failed after 3 retries...", SupEvent.close] :=
  retry_exhaustion_trace 3 3 (by decide) (by decide)

/-- C7: with `filtered = true` and this connection's pid 7777, the incoming
notification `{processId: 7777, channel: "T", payload: "true"}` produces no
`message` event, while the same notification from pid 9999 — the channel
being non-internal and the registered lock acquired — produces
`message("T", true)` followed by the per-channel event. -/
theorem self_filter_scenario :
    (PgPubSub.onNotification ⟨true, true, false⟩ (some 7777)
      [("T".data, AnyLock.ip ⟨"__PgIpLock__:T".data, none, true⟩)]
      ⟨7777, "T".data, some [.tbool true]⟩).2 = []
    ∧ (PgPubSub.onNotification ⟨true, true, false⟩ (some 7777)
      [("T".data, AnyLock.ip ⟨"__PgIpLock__:T".data, none, true⟩)]
      ⟨9999, "T".data, some [.tbool true]⟩).2 =
      [.message "T".data (.bool true), .channelEvent "T".data (.bool true)] := by
  constructor <;> rfl

/-- C9 (divergence witness): with locks 1 and 2 in the instance roster,
destroying lock 1 removes only its entry; but a second `destroy()` of the
now-absent lock 1 runs `splice(findIndex(...) = -1, 1)`, which removes the
roster's last entry — lock 2's — instead of leaving the roster unchanged. -/
theorem destroy_roster_splice_bug :
    destroySplice [1, 2] 1 = [2] ∧ destroySplice [2] 1 = [] := by
  constructor <;> rfl

/-- C10: the constructor's channel mangling strips every leading
occurrence of the internal tag and prepends it once: it is idempotent, the
result carries exactly one tag, and for a user channel name `x` (one not
starting with the tag) any number of repeated tags collapses to
`__PgIpLock__:x`. -/
theorem channel_mangling_idempotent (x : List Char)
    (h : ¬ x.take lockTag.length = lockTag) :
    mangleChannel (mangleChannel x) = mangleChannel x
    ∧ countLockTag (mangleChannel x) = 1
    ∧ (∀ k, mangleChannel (lockTagPow k ++ x) = lockTag ++ x) := by
  refine ⟨mangleChannel_idem x, countLockTag_mangleChannel x, ?_⟩
  intro k
  unfold mangleChannel
  rw [stripLockTag_pow, stripLockTag_of_not h]

/-- C10 witness: the two-fold tagged channel `__PgIpLock__:__PgIpLock__:T`
mangles to the singly tagged `__PgIpLock__:T`. -/
theorem channel_mangling_idempotent_witness :
    ¬ ("T".data.take lockTag.length = lockTag)
    ∧ mangleChannel (lockTagPow 2 ++ "T".data) = lockTag ++ "T".data :=
  ⟨by decide, (channel_mangling_idempotent "T".data (by decide)).2.2 2⟩

/-! ## Helper lemmas: codec round-trip -/

theorem jsonStringify_head_ne_rbrack (v : Jx) (rest : List JTok) :
    ¬ ((jsonStringify v ++ rest).head? = some .rbrack) := by
  cases v <;> simp [jsonStringify]

theorem jsonStringify_head_ne_rbrace (v : Jx) (rest : List JTok) :
    ¬ ((jsonStringify v ++ rest).head? = some .rbrace) := by
  cases v <;> simp [jsonStringify]

mutual

/-- Fuel sufficient for `parseVal` on the serialization of a value. -/
def needV : Jx → Nat
  | .null => 1
  | .bool _ => 1
  | .num _ => 1
  | .str _ => 1
  | .arr l => 1 + needL l
  | .obj o => 1 + needO o

/-- Fuel sufficient for `parseArrBody` / `parseArrTail` on a serialized
array body. -/
def needL : JxList → Nat
  | .nil => 1
  | .cons x tl => 1 + needV x + needL tl

/-- Fuel sufficient for `parseObjBody` / `parseObjTail` on a serialized
object body. -/
def needO : JxObj → Nat
  | .nil => 1
  | .cons _ v tl => 1 + needV v + needO tl

end

mutual

theorem parseVal_stringify (v : Jx) : ∀ (r : List JTok) (f : Nat),
    needV v ≤ f → parseVal f (jsonStringify v ++ r) = some (v, r) := by
  cases v with
  | null =>
    intro r f hf
    cases f with
    | zero => simp only [needV] at hf; omega
    | succ g => simp [jsonStringify, parseVal]
  | bool b =>
    intro r f hf
    cases f with
    | zero => simp only [needV] at hf; omega
    | succ g => simp [jsonStringify, parseVal]
  | num n =>
    intro r f hf
    cases f with
    | zero => simp only [needV] at hf; omega
    | succ g => simp [jsonStringify, parseVal]
  | str s =>
    intro r f hf
    cases f with
    | zero => simp only [needV] at hf; omega
    | succ g => simp [jsonStringify, parseVal]
  | arr l =>
    intro r f hf
    cases f with
    | zero => simp only [needV] at hf; omega
    | succ g =>
      have hl : needL l ≤ g := by simp only [needV] at hf; omega
      have hbody := parseArrBody_stringifyList l r g hl
      simp only [jsonStringify, List.cons_append, List.append_assoc,
        List.singleton_append]
      simp [parseVal, hbody]
  | obj o =>
    intro r f hf
    cases f with
    | zero => simp only [needV] at hf; omega
    | succ g =>
      have ho : needO o ≤ g := by simp only [needV] at hf; omega
      have hbody := parseObjBody_stringifyObj o r g ho
      simp only [jsonStringify, List.cons_append, List.append_assoc,
        List.singleton_append]
      simp [parseVal, hbody]

theorem parseArrBody_stringifyList (l : JxList) : ∀ (r : List JTok) (f : Nat),
    needL l ≤ f →
    parseArrBody f (jsonStringifyList l ++ (.rbrack :: r)) = some (l, r) := by
  cases l with
  | nil =>
    intro r f hf
    cases f with
    | zero => simp only [needL] at hf; omega
    | succ g => simp [jsonStringifyList, parseArrBody]
  | cons x tl =>
    intro r f hf
    cases f with
    | zero => simp only [needL] at hf; omega
    | succ g =>
      have hx : needV x ≤ g := by simp only [needL] at hf; omega
      have htl : needL tl ≤ g := by simp only [needL] at hf; omega
      have hhead := jsonStringify_head_ne_rbrack x
        (jsonStringifyListTail tl ++ (.rbrack :: r))
      have h1 := parseVal_stringify x
        (jsonStringifyListTail tl ++ (.rbrack :: r)) g hx
      have h2 := parseArrTail_stringifyListTail tl r g htl
      simp only [jsonStringifyList, List.append_assoc]
      simp only [parseArrBody]
      rw [if_neg hhead]
      simp [h1, h2]

theorem parseArrTail_stringifyListTail (l : JxList) : ∀ (r : List JTok) (f : Nat),
    needL l ≤ f →
    parseArrTail f (jsonStringifyListTail l ++ (.rbrack :: r)) = some (l, r) := by
  cases l with
  | nil =>
    intro r f hf
    cases f with
    | zero => simp only [needL] at hf; omega
    | succ g => simp [jsonStringifyListTail, parseArrTail]
  | cons x tl =>
    intro r f hf
    cases f with
    | zero => simp only [needL] at hf; omega
    | succ g =>
      have hx : needV x ≤ g := by simp only [needL] at hf; omega
      have htl : needL tl ≤ g := by simp only [needL] at hf; omega
      have h1 := parseVal_stringify x
        (jsonStringifyListTail tl ++ (.rbrack :: r)) g hx
      have h2 := parseArrTail_stringifyListTail tl r g htl
      simp only [jsonStringifyListTail, List.cons_append, List.append_assoc]
      simp [parseArrTail, h1, h2]

theorem parseObjBody_stringifyObj (o : JxObj) : ∀ (r : List JTok) (f : Nat),
    needO o ≤ f →
    parseObjBody f (jsonStringifyObj o ++ (.rbrace :: r)) = some (o, r) := by
  cases o with
  | nil =>
    intro r f hf
    cases f with
    | zero => simp only [needO] at hf; omega
    | succ g => simp [jsonStringifyObj, parseObjBody]
  | cons k v tl =>
    intro r f hf
    cases f with
    | zero => simp only [needO] at hf; omega
    | succ g =>
      have hv : needV v ≤ g := by simp only [needO] at hf; omega
      have htl : needO tl ≤ g := by simp only [needO] at hf; omega
      have h1 := parseVal_stringify v
        (jsonStringifyObjTail tl ++ (.rbrace :: r)) g hv
      have h2 := parseObjTail_stringifyObjTail tl r g htl
      simp only [jsonStringifyObj, List.cons_append, List.append_assoc]
      simp [parseObjBody, h1, h2]

theorem parseObjTail_stringifyObjTail (o : JxObj) : ∀ (r : List JTok) (f : Nat),
    needO o ≤ f →
    parseObjTail f (jsonStringifyObjTail o ++ (.rbrace :: r)) = some (o, r) := by
  cases o with
  | nil =>
    intro r f hf
    cases f with
    | zero => simp only [needO] at hf; omega
    | succ g => simp [jsonStringifyObjTail, parseObjTail]
  | cons k v tl =>
    intro r f hf
    cases f with
    | zero => simp only [needO] at hf; omega
    | succ g =>
      have hv : needV v ≤ g := by simp only [needO] at hf; omega
      have htl : needO tl ≤ g := by simp only [needO] at hf; omega
      have h1 := parseVal_stringify v
        (jsonStringifyObjTail tl ++ (.rbrace :: r)) g hv
      have h2 := parseObjTail_stringifyObjTail tl r g htl
      simp only [jsonStringifyObjTail, List.cons_append, List.append_assoc]
      simp [parseObjTail, h1, h2]

end

mutual

theorem needV_le_stringify (v : Jx) :
    needV v ≤ 2 * (jsonStringify v).length := by
  cases v with
  | null => simp [needV, jsonStringify]
  | bool b => simp [needV, jsonStringify]
  | num n => simp [needV, jsonStringify]
  | str s => simp [needV, jsonStringify]
  | arr l =>
    cases l with
    | nil => simp [needV, needL, jsonStringify, jsonStringifyList]
    | cons x tl =>
      have h1 := needV_le_stringify x
      have h2 := needL_le_stringifyTail tl
      simp only [needV, needL, jsonStringify, jsonStringifyList,
        List.length_cons, List.length_append] at *
      omega
  | obj o =>
    cases o with
    | nil => simp [needV, needO, jsonStringify, jsonStringifyObj]
    | cons k v tl =>
      have h1 := needV_le_stringify v
      have h2 := needO_le_stringifyTail tl
      simp only [needV, needO, jsonStringify, jsonStringifyObj,
        List.length_cons, List.length_append] at *
      omega

theorem needL_le_stringifyTail (l : JxList) :
    needL l ≤ 2 * (jsonStringifyListTail l).length + 1 := by
  cases l with
  | nil => simp [needL, jsonStringifyListTail]
  | cons x tl =>
    have h1 := needV_le_stringify x
    have h2 := needL_le_stringifyTail tl
    simp only [needL, jsonStringifyListTail, List.length_cons,
      List.length_append] at *
    omega

theorem needO_le_stringifyTail (o : JxObj) :
    needO o ≤ 2 * (jsonStringifyObjTail o).length + 1 := by
  cases o with
  | nil => simp [needO, jsonStringifyObjTail]
  | cons k v tl =>
    have h1 := needV_le_stringify v
    have h2 := needO_le_stringifyTail tl
    simp only [needO, jsonStringifyObjTail, List.length_cons,
      List.length_append] at *
    omega

end

theorem unpack_pack_roundtrip (v : Jx) :
    unpack (some (pack (some v))) = v := by
  have hle : needV v ≤ 2 * (jsonStringify v).length + 1 :=
    le_trans (needV_le_stringify v) (by omega)
  have h := parseVal_stringify v [] (2 * (jsonStringify v).length + 1) hle
  rw [List.append_nil] at h
  simp [unpack, pack, jsonParse, h]

/-- C8: the codec round-trips every JSON value: `unpack (pack v) = v` for
every defined value; `pack` of an undefined input is the literal `null`, so
its round-trip gives `null`; `unpack` of a non-string input is `null`; and
`unpack` of a string `JSON.parse` rejects is the empty object — without
ever throwing (both functions are total). -/
theorem codec_roundtrip_spec :
    (∀ v : Jx, unpack (some (pack (some v))) = v)
    ∧ pack none = [JTok.tnull]
    ∧ unpack (some (pack none)) = Jx.null
    ∧ unpack none = Jx.null
    ∧ (∀ toks : List JTok,
        (∃ v, jsonParse toks = some v ∧ unpack (some toks) = v)
        ∨ (jsonParse toks = none ∧ unpack (some toks) = Jx.obj JxObj.nil)) := by
  refine ⟨fun v => unpack_pack_roundtrip v, rfl, rfl, rfl, ?_⟩
  intro toks
  cases h : jsonParse toks with
  | some v => exact Or.inl ⟨v, rfl, by simp [unpack, h]⟩
  | none => exact Or.inr ⟨rfl, by simp [unpack, h]⟩
